import Mathlib

/-!
Verification of the mail_service repository (lib/naver_mail_parser.py,
lib/text_summarizer.py, lib/naver_mail_suite.py,
lib/naver_smtp_with_attachments.py).

Python strings are embedded as `List Char`.  The Python string operations
used by the code (strip, split, replace, join, slicing, os.path.splitext)
are defined below, faithful to CPython semantics on the inputs that occur.
The file is organised as: all definitions first, then all theorems.
-/

namespace MailService

/-! ## Part 1: definitions -/

/-- Characters removed by Python str.strip() with no argument:
the Unicode whitespace characters recognised by str.isspace. -/
def isPySpace (c : Char) : Bool :=
  c = ' ' || c = '\t' || c = '\n' || c = '\r' || c = '\x0b' || c = '\x0c' ||
  c = '\x1c' || c = '\x1d' || c = '\x1e' || c = '\x1f' || c = '\x85' ||
  c = '\xa0' || c = ' ' || (' ' ≤ c && c ≤ ' ') ||
  c = ' ' || c = ' ' || c = ' ' || c = ' ' || c = '　'

/-- Python str.lstrip(): drop leading whitespace. -/
def lstrip (s : List Char) : List Char := s.dropWhile isPySpace

/-- Python str.rstrip(): drop trailing whitespace. -/
def rstrip (s : List Char) : List Char := (s.reverse.dropWhile isPySpace).reverse

/-- Python str.strip(): drop whitespace at both ends. -/
def pyStrip (s : List Char) : List Char := rstrip (lstrip s)

/-- Boolean test that `p` is a leading segment of `s` (Python str.startswith). -/
def isPref : List Char → List Char → Bool
  | [], _ => true
  | _ :: _, [] => false
  | a :: as, b :: bs => a = b && isPref as bs

/-- Python substring test `sep in s`. -/
def containsSub (sep : List Char) : List Char → Bool
  | [] => sep.isEmpty
  | s@(_ :: rest) => isPref sep s || containsSub sep rest

/-- Worker for Python str.split(sep) with a non-empty separator.
Scans left to right; `skip` counts characters of a just-matched separator
still to be consumed, `acc` holds the current piece reversed. -/
def splitCh (sep : List Char) : List Char → Nat → List Char → List (List Char)
  | [], _, acc => [acc.reverse]
  | _ :: rest, skip + 1, acc => splitCh sep rest skip acc
  | s@(c :: rest), 0, acc =>
    if isPref sep s then
      acc.reverse :: splitCh sep rest (sep.length - 1) []
    else
      splitCh sep rest 0 (c :: acc)

/-- Python str.split(sep).  For the (never used here) empty separator we
return the whole string, whereas Python raises ValueError. -/
def pySplit (sep s : List Char) : List (List Char) :=
  if sep.isEmpty then [s] else splitCh sep s 0 []

/-- Python sep.join(parts). -/
def joinL (sep : List Char) : List (List Char) → List Char
  | [] => []
  | [x] => x
  | x :: xs => x ++ sep ++ joinL sep xs

/-- Python str.replace(old, new): replace every non-overlapping occurrence,
scanning from the left.  (Not used with an empty `old`.) -/
def pyReplace (old new s : List Char) : List Char := joinL new (pySplit old s)

/-- Python s.split(c, 1): the text before the first occurrence of `c`,
and — when `c` occurs — the remainder after it. -/
def splitFirst1 (c : Char) : List Char → List Char × Option (List Char)
  | [] => ([], none)
  | x :: rest =>
    if x = c then ([], some rest)
    else
      let p := splitFirst1 c rest
      (x :: p.1, p.2)

/-- A separator with no border: no proper non-empty suffix of it is one of
its own leading segments.  This rules out occurrences of the separator that
straddle a designed occurrence, whatever text surrounds it. -/
def noBorder (sep : List Char) : Prop :=
  ∀ k < sep.length, 0 < k → isPref (sep.drop k) sep = false

instance (sep : List Char) : Decidable (noBorder sep) := by
  unfold noBorder
  infer_instance

/-! ### The body/attachment segmenter

`naver_mail_parser.py` lines 262-264 and 305-309 build the combined text;
`text_summarizer.py` lines 404-425 split it back apart
(`get_email_body_and_attachments_separately`). -/

/-- The marker checked for containment: the literal `=== 첨부파일:`
(naver_mail_parser.py line 264, text_summarizer.py line 410). -/
def markerM : List Char := "=== 첨부파일:".toList

/-- The separator used when splitting the combined text:
`\n\n=== 첨부파일:` (text_summarizer.py line 411). -/
def markerFull : List Char := "\n\n=== 첨부파일:".toList

/-- One attachment block appended to the body
(naver_mail_parser.py line 264): the literal text
`\n\n=== 첨부파일: <filename> ===\n<extracted_text>`. -/
def attBlock (f t : List Char) : List Char :=
  markerFull ++ [' '] ++ f ++ [' ', '=', '=', '='] ++ ['\n'] ++ t

/-- The encoding step (naver_mail_parser.py lines 305-309): when at least
one attachment produced extracted text, the combined text is the stripped
body followed by the newline-join of the attachment blocks; otherwise it
is just the stripped body. -/
def encodeCombined (bodyText : List Char) (atts : List (List Char × List Char)) :
    List Char :=
  let blocks := atts.map fun a => attBlock a.1 a.2
  if blocks.isEmpty then pyStrip bodyText
  else pyStrip bodyText ++ joinL ['\n'] blocks

/-- Parsing of one post-split segment (text_summarizer.py lines 415-425):
the text before the first newline is the attachment header, from which the
filename is recovered by stripping and deleting `===`; the remainder,
stripped, is the extracted text (empty when there is no newline). -/
def parseSeg (part : List Char) : List Char × List Char :=
  let lines := splitFirst1 '\n' part
  let fname := pyStrip (pyReplace "===".toList [] (pyStrip lines.1))
  match lines.2 with
  | none => (fname, [])
  | some r => (fname, pyStrip r)

/-- The decoding step (text_summarizer.py lines 404-425): when the marker
occurs, split on the full separator; the first piece, stripped, is the
body, and every further piece is parsed into (filename, extracted text).
`pySplit` never returns an empty list, so the `[]` branch is unreachable;
it mirrors Python indexing `parts[0]` which always succeeds there. -/
def decodeCombined (bodyText : List Char) :
    List Char × List (List Char × List Char) :=
  if containsSub markerM bodyText = true then
    match pySplit markerFull bodyText with
    | [] => (pyStrip bodyText, [])
    | p0 :: rest => (pyStrip p0, rest.map parseSeg)
  else (bodyText, [])

/-- An attachment block without its leading separator: the segment the
split produces for this attachment (before the trailing join newline). -/
def attSeg (f t : List Char) : List Char :=
  [' '] ++ f ++ [' ', '=', '=', '='] ++ ['\n'] ++ t

/-- The (variable-length) tail of the combined text after the first
separator occurrence, used to describe the split: blocks joined by a
newline, with the leading separator removed. -/
def segTail : List (List Char × List Char) → List Char
  | [] => []
  | [(f, t)] => attSeg f t
  | (f, t) :: rest => attSeg f t ++ ['\n'] ++ (markerFull ++ segTail rest)

/-- The list of pieces the split of the combined text produces after the
body piece: each attachment segment, with the joining newline attached to
every segment except the last. -/
def segList : List (List Char × List Char) → List (List Char)
  | [] => []
  | [(f, t)] => [attSeg f t]
  | (f, t) :: rest => (attSeg f t ++ ['\n']) :: segList rest

/-- Conditions under which one attachment record survives the round trip:
filename stripped, free of newlines and of `===`; extracted text stripped
and free of the marker. -/
def attOk (a : List Char × List Char) : Prop :=
  pyStrip a.1 = a.1 ∧ (∀ c ∈ a.1, c ≠ '\n') ∧
    containsSub ['=', '=', '='] a.1 = false ∧
    pyStrip a.2 = a.2 ∧ containsSub markerM a.2 = false

instance (a : List Char × List Char) : Decidable (attOk a) := by
  unfold attOk
  infer_instance

/-! ### The summarizer chunker

`text_summarizer.py` lines 58-76, `split_text_by_tokens`.  The token
counter (tiktoken) is an external capability and enters as a function
parameter `tok`. -/

/-- The text accumulated for a group of sentences: every sentence gets the
terminator `. ` appended (text_summarizer.py line 65). -/
def flatDot (g : List (List Char)) : List Char :=
  (g.map fun s => s ++ ['.', ' ']).flatten

/-- The sentence loop of split_text_by_tokens (lines 64-74): greedy
accumulation with the current chunk and the emitted chunks as state. -/
def sttGo (tok : List Char → Nat) (maxTok : Nat) :
    List (List Char) → List Char → List (List Char) → List (List Char)
  | [], current, chunks =>
    if current = [] then chunks else chunks ++ [pyStrip current]
  | s :: rest, current, chunks =>
    let test := current ++ s ++ ['.', ' ']
    if tok test > maxTok then
      if current = [] then sttGo tok maxTok rest (s ++ ['.', ' ']) chunks
      else sttGo tok maxTok rest (s ++ ['.', ' ']) (chunks ++ [pyStrip current])
    else sttGo tok maxTok rest test chunks

/-- split_text_by_tokens (text_summarizer.py lines 58-76): split on `. `,
then greedily pack sentences into chunks by the token budget. -/
def splitTextByTokens (tok : List Char → Nat) (maxChunkTokens : Nat)
    (text : List Char) : List (List Char) :=
  sttGo tok maxChunkTokens (pySplit ['.', ' '] text) [] []

/-! ### File names: sanitizing, splitext, collision resolution

`naver_mail_parser.py` lines 106-116 (sanitize_filename) and 201-243
(save_attachment). -/

/-- The characters of the regular-expression class removed by
sanitize_filename (line 109). -/
def illegalChar (c : Char) : Bool :=
  c = '<' || c = '>' || c = ':' || c = '"' || c = '/' || c = '\\' ||
  c = '|' || c = '?' || c = '*'

/-- The per-character effect of lines 109-111: illegal characters and
spaces become underscores.  (The two passes of the source act on disjoint
characters, so one map is equivalent.) -/
def cleanChar (c : Char) : Char :=
  if illegalChar c then '_' else if c = ' ' then '_' else c

/-- Lines 109-111 of sanitize_filename. -/
def cleanName (s : List Char) : List Char := s.map cleanChar

/-- The index of the last occurrence of `c` in `s`, or -1 when absent
(Python str.rfind). -/
def lastIdx (c : Char) (s : List Char) : Int :=
  match s.reverse.findIdx? fun x => x = c with
  | none => -1
  | some i => (s.length : Int) - 1 - i

/-- Python slicing l[:k] including the negative-index convention. -/
def pySliceTo (k : Int) (l : List Char) : List Char :=
  if k < 0 then l.take ((l.length : Int) + k).toNat else l.take k.toNat

/-- os.path.splitext, following CPython genericpath._splitext: split at the
last dot, provided it comes after the last path separator and the base
name is not made of leading dots only. -/
def splitExt (p : List Char) : List Char × List Char :=
  let sepIndex := lastIdx '/' p
  let dotIndex := lastIdx '.' p
  if sepIndex < dotIndex then
    let base := (p.drop (sepIndex + 1).toNat).take (dotIndex - sepIndex - 1).toNat
    if base.any fun x => x ≠ '.' then
      (p.take dotIndex.toNat, p.drop dotIndex.toNat)
    else (p, [])
  else (p, [])

/-- sanitize_filename (naver_mail_parser.py lines 106-116): replace the
dangerous characters and spaces, then, when the result is longer than 200
characters, keep the extension and cut the stem to fit (Python slicing:
a negative cut count removes characters from the end instead). -/
def sanitizeFilename (filename : List Char) : List Char :=
  let f := cleanName filename
  if 200 < f.length then
    let ne := splitExt f
    pySliceTo (200 - (ne.2.length : Int)) ne.1 ++ ne.2
  else f

/-- Decimal digits of a counter value (used for the `_<n>` suffix). -/
def natDigits (n : Nat) : List Char := Nat.toDigits 10 n

/-- The collision loop of save_attachment (lines 216-222): try
`<name>_<k><ext>` for k = 1, 2, ... until the path does not exist.  The
folder content is modelled as the list of names present.  Candidates for
distinct counters are distinct, so `existing.length + 1` rounds always
suffice; the fuel only makes the recursion structural. -/
def findFree (existing : List (List Char)) (name ext : List Char) :
    Nat → Nat → List Char
  | 0, k => name ++ '_' :: (natDigits k ++ ext)
  | fuel + 1, k =>
    let cand := name ++ '_' :: (natDigits k ++ ext)
    if cand ∈ existing then findFree existing name ext fuel (k + 1) else cand

/-- File-name assignment of save_attachment (lines 214-222): the sanitized
name itself when free, otherwise the first counter-suffixed variant that
is free. -/
def resolvePath (existing : List (List Char)) (orig : List Char) : List Char :=
  if orig ∈ existing then
    let ne := splitExt orig
    findFree existing ne.1 ne.2 (existing.length + 1) 1
  else orig

/-! ### The format extractor

`naver_mail_parser.py` lines 118-199, extract_text_from_file.  The
document libraries (PyPDF2, python-docx, openpyxl, python-pptx) are
optional runtime capabilities; the file system and the libraries
themselves are outside effects.  Each library call enters as a function
from the path to either the extracted text or the message of the raised
exception; the text-file branch has its own three-valued outcome because
the code distinguishes decode failures from other read failures. -/

/-- Which extraction libraries imported successfully (lines 15-34). -/
structure ExtractCaps where
  pdf : Bool
  docx : Bool
  xlsx : Bool
  pptx : Bool

/-- Outcome of the multi-encoding text read (lines 180-192): a successful
decode, a UnicodeDecodeError from every encoding, or another exception. -/
inductive TxtRead where
  | ok (text : List Char)
  | encFail
  | readFail (e : List Char)

/-- The lowercased extension of a path (line 122-123). -/
def lowerExt (p : List Char) : List Char := (splitExt p).2.map Char.toLower

/-- The extensions of the plain-text branch (line 180). -/
def textExts : List (List Char) :=
  [".txt".toList, ".csv".toList, ".log".toList, ".md".toList,
   ".json".toList, ".xml".toList, ".html".toList, ".htm".toList]

/-- Every extension some branch of the dispatcher accepts. -/
def supportedExts : List (List Char) :=
  [".pdf".toList, ".docx".toList, ".doc".toList, ".xlsx".toList,
   ".xls".toList, ".pptx".toList, ".ppt".toList] ++ textExts

/-- A bracketed failure-marker string. -/
def bracketed (s : List Char) : Prop :=
  s.head? = some '[' ∧ s.getLast? = some ']'

/-- extract_text_from_file (lines 118-199): dispatch on the lowercased
extension, with each library branch degrading its exceptions to a
bracketed marker, the text branch degrading decode/read failures to
markers, and every other extension — including a supported extension
whose library is absent — falling through to the not-supported marker. -/
def extractTextFromFile (caps : ExtractCaps)
    (pdfRead docRead xlsRead pptRead : List Char → Except (List Char) (List Char))
    (txtRead : List Char → TxtRead) (filepath : List Char) : List Char :=
  let ext := lowerExt filepath
  if ext = ".pdf".toList ∧ caps.pdf then
    match pdfRead filepath with
    | .ok t => t
    | .error e => "[PDF 텍스트 추출 실패: ".toList ++ e ++ [']']
  else if (ext = ".docx".toList ∨ ext = ".doc".toList) ∧ caps.docx then
    match docRead filepath with
    | .ok t => t
    | .error e => "[Word 텍스트 추출 실패: ".toList ++ e ++ [']']
  else if (ext = ".xlsx".toList ∨ ext = ".xls".toList) ∧ caps.xlsx then
    match xlsRead filepath with
    | .ok t => t
    | .error e => "[Excel 텍스트 추출 실패: ".toList ++ e ++ [']']
  else if (ext = ".pptx".toList ∨ ext = ".ppt".toList) ∧ caps.pptx then
    match pptRead filepath with
    | .ok t => t
    | .error e => "[PowerPoint 텍스트 추출 실패: ".toList ++ e ++ [']']
  else if ext ∈ textExts then
    match txtRead filepath with
    | .ok t => t
    | .encFail => "[텍스트 파일 인코딩 실패]".toList
    | .readFail e => "[텍스트 파일 읽기 실패: ".toList ++ e ++ [']']
  else "[".toList ++ ext ++ " 형식은 텍스트 추출을 지원하지 않습니다]".toList

/-! ### The orchestration workflow

`naver_mail_suite.py` lines 577-657, fetch_summarize_send.  Fetching,
summarizing and sending are protocol and LLM calls; they enter as the
fetched list and as function parameters.  The second component of the
result records the value of the send call, `none` meaning the send step
was never invoked. -/

/-- Error message for zero fetched messages (naver_mail_suite.py 612). -/
def errNoFetch : List Char := "가져올 이메일이 없습니다".toList

/-- Error message for zero successful summaries (naver_mail_suite.py 622). -/
def errNoSumm : List Char := "요약된 이메일이 없습니다".toList

/-- The result record of the workflow, keeping only the fields the claims
concern: the success flag, the error message, and the counts reported on
success. -/
structure WorkflowResult where
  success : Bool
  error : Option (List Char)
  emailsFetched : Option Nat
  emailsSummarized : Option Nat
  deriving DecidableEq, Repr

/-- fetch_summarize_send (naver_mail_suite.py lines 604-657): fetch, then
summarize, keep the records that carry a summary, and only then send.
`hasSummary` models Python's `'summary' in e` test (line 619). -/
def fetchSummarizeSend {α β σ : Type} (emails : List α)
    (summarize : List α → List β) (hasSummary : β → Bool)
    (send : List β → σ) : WorkflowResult × Option σ :=
  if emails.isEmpty then
    (⟨false, some errNoFetch, none, none⟩, none)
  else
    let summarized := summarize emails
    let ok := summarized.filter hasSummary
    if ok.isEmpty then
      (⟨false, some errNoSumm, none, none⟩, none)
    else
      (⟨true, none, some emails.length, some ok.length⟩, some (send ok))

/-! ### The SMTP sender

`naver_smtp_with_attachments.py`: _add_attachment (lines 43-91) and
send_email (lines 93-187).  File existence, file readability and the SMTP
transaction are outside effects and enter as parameters.  The printed
warnings are modelled as a collected list (the leading warning emoji of
the prints is omitted). -/

/-- Python Path(p).name: the part after the last slash. -/
def pathName (p : List Char) : List Char :=
  (p.reverse.takeWhile fun c => c ≠ '/').reverse

/-- Warning text printed for an absent attachment file (line 46). -/
def warnMissing (p : List Char) : List Char :=
  "첨부파일을 찾을 수 없습니다: ".toList ++ p

/-- Warning text printed when wrapping an attachment raises (line 90). -/
def warnFailed (p : List Char) : List Char :=
  "첨부파일 추가 실패: ".toList ++ p

/-- _add_attachment (lines 43-91): skip with a warning when the file does
not exist, attach on success, warn and skip when reading or wrapping
fails.  Returns (attached?, warning?). -/
def addAttachmentOutcome (fileOk readOk : List Char → Bool) (p : List Char) :
    Bool × Option (List Char) :=
  if fileOk p = false then (false, some (warnMissing p))
  else if readOk p then (true, none)
  else (false, some (warnFailed p))

/-- The outcome of the SMTP transaction, distinguished as in the code's
exception handlers (lines 173-187). -/
inductive SmtpOutcome where
  | ok
  | authFail
  | recipientsRefused (e : List Char)
  | otherFail (e : List Char)

/-- The result dictionary of send_email, restricted to the fields the
claims concern, plus the collected warnings. -/
structure SendResult where
  success : Bool
  error : Option (List Char)
  attachments : List (List Char)
  attachmentCount : Nat
  recipients : Nat
  warnings : List (List Char)
  deriving DecidableEq, Repr

/-- send_email (lines 93-187): build the message, attach every attachment
that succeeds (collecting its base name), send to the union of To/Cc/Bcc,
and report the attached names and counts; the three exception handlers
yield distinguished failure results. -/
def sendEmail (fileOk readOk : List Char → Bool) (smtp : SmtpOutcome)
    (toEmails ccEmails bccEmails : List (List Char))
    (attachments : List (List Char)) : SendResult :=
  let results := attachments.map fun p => (p, addAttachmentOutcome fileOk readOk p)
  let attached := (results.filter fun r => r.2.1).map fun r => pathName r.1
  let warnings := results.filterMap fun r => r.2.2
  let allRecipients := toEmails ++ ccEmails ++ bccEmails
  match smtp with
  | .ok => ⟨true, none, attached, attached.length, allRecipients.length, warnings⟩
  | .authFail =>
    ⟨false, some "SMTP 인증 실패: 아이디 또는 앱 비밀번호를 확인하세요.".toList,
      [], 0, 0, warnings⟩
  | .recipientsRefused e => ⟨false, some ("수신자 거부: ".toList ++ e), [], 0, 0, warnings⟩
  | .otherFail e => ⟨false, some ("이메일 전송 실패: ".toList ++ e), [], 0, 0, warnings⟩

/-! ### The summarizer result records

`text_summarizer.py`: summarize_email (lines 176-285) and
summarize_downloaded_attachment (lines 632-704).  The token counter and
the LLM call are external capabilities (tiktoken / the chat completion)
and enter as function parameters.  A raised-and-caught exception becomes
an error value, as in the code's outermost handlers. -/

/-- Python round(x, 2) on exact rationals: round to two decimal places.
(CPython rounds ties to even on floats; the difference is immaterial for
the properties proved here, which never sit on a tie.) -/
def pyRound2 (x : ℚ) : ℚ := (round (x * 100) : ℤ) / 100

/-- Header fields of a parsed email record as used by summarize_email. -/
structure EmailData where
  subject : Option (List Char)
  sender : Option (List Char)
  date : Option (List Char)
  body : Option (List Char)

/-- The summary record, restricted to the token-accounting fields. -/
structure EmailSummary where
  originalTokens : Nat
  summary : List Char
  summaryTokens : Nat
  compressionRatio : ℚ
  deriving DecidableEq, Repr

/-- Lines 194-206 of summarize_email: the header lines and the
50-equals-signs separator. -/
def headerParts (d : EmailData) : List (List Char) :=
  (match d.subject with
   | some s => ["제목: ".toList ++ s]
   | none => []) ++
  (match d.sender with
   | some s => ["발신자: ".toList ++ s]
   | none => []) ++
  (match d.date with
   | some s => ["날짜: ".toList ++ s]
   | none => []) ++
  [List.replicate 50 '=']

/-- Lines 209-237 of summarize_email: select body and/or attachment text
from the combined body; an empty attachment scope is an error value. -/
def bodyParts (body : List Char) (includeAtts onlyAtts : Bool) :
    Except (List Char) (List (List Char)) :=
  if containsSub markerM body = true then
    let bp := pySplit markerFull body
    let bodyOnly := bp.headD []
    let attText := joinL markerFull bp.tail
    if onlyAtts then
      if attText ≠ [] then
        .ok ["\n[첨부파일 내용만 요약]\n".toList ++ markerM ++ attText]
      else .error "첨부파일 텍스트가 없습니다".toList
    else if includeAtts then
      .ok ([bodyOnly] ++
        if attText ≠ [] then [['\n'] ++ markerM ++ attText] else [])
    else .ok [bodyOnly]
  else
    if onlyAtts then .error "첨부파일 텍스트가 없습니다".toList
    else .ok [body]

/-- The shared chunk-then-recombine pipeline (summarize_email lines
244-262, summarize_downloaded_attachment lines 662-681): chunk when over
the model budget minus the 1000-token reserve, summarize each chunk, join
with blank lines, and re-summarize once when the joined summaries still
exceed 3000 tokens. -/
def summarizePipeline (tok : List Char → Nat) (llm : List Char → List Char)
    (maxTokens : Nat) (text : List Char) : List Char :=
  if (maxTokens : Int) - 1000 < (tok text : Int) then
    let chunks := splitTextByTokens tok 3000 text
    let combined := joinL ['\n', '\n'] (chunks.map llm)
    if 3000 < tok combined then llm combined else combined
  else llm text

/-- summarize_email (lines 176-285).  The compression ratio at line 275
divides by the token count of the assembled content without a guard; a
zero count raises ZeroDivisionError, which the handler at line 284 turns
into an error record — so the zero case is modelled as the error value
carrying the Python exception text. -/
def summarizeEmailModel (tok : List Char → Nat) (llm : List Char → List Char)
    (maxTokens : Nat) (d : EmailData) (includeAtts onlyAtts : Bool) :
    Except (List Char) EmailSummary :=
  match (match d.body with
         | some b => bodyParts b includeAtts onlyAtts
         | none => .ok []) with
  | .error e => .error e
  | .ok bps =>
    let content := joinL ['\n'] (headerParts d ++ bps)
    let tokenCount := tok content
    let final := summarizePipeline tok llm maxTokens content
    if tokenCount = 0 then
      .error "메일 요약 실패: division by zero".toList
    else
      .ok ⟨tokenCount, final, tok final,
        pyRound2 ((tok final : ℚ) / (tokenCount : ℚ) * 100)⟩

/-- summarize_downloaded_attachment (lines 632-704), applied to the text
the extractor produced for the file.  The marker test at line 651 keeps
Python's operator precedence: (starts with `[` and contains `실패`) or
contains `지원하지 않습니다`.  Its compression ratio at line 692 is
guarded: zero original tokens report ratio 0. -/
def summarizeDownloadedAttachment (tok : List Char → Nat)
    (llm : List Char → List Char) (maxTokens : Nat)
    (extractedText : List Char) : Except (List Char) EmailSummary :=
  if (isPref ['['] extractedText && containsSub "실패".toList extractedText) ||
      containsSub "지원하지 않습니다".toList extractedText then
    .error extractedText
  else
    let tokenCount := tok extractedText
    let final := summarizePipeline tok llm maxTokens extractedText
    .ok ⟨tokenCount, final, tok final,
      if 0 < tokenCount then
        pyRound2 ((tok final : ℚ) / (tokenCount : ℚ) * 100)
      else 0⟩

/-! ### The mail parser: body and attachment assembly

`naver_mail_parser.py` lines 245-316 (parse_email_body_and_attachments)
and 318-385 (download_email_full).  MIME walking, file writes and
BeautifulSoup are outside effects: a message enters as its classified
parts, HTML-to-text enters as a function parameter, and the body.txt
artifact is modelled as the optional written content. -/

/-- One MIME part as the walk classifies it (lines 252-284): an
attachment with its saved filename and extraction result, a text/plain or
text/html body part with its decoded payload, or anything else. -/
inductive MPart where
  | attach (filename : List Char) (extractedText : List Char)
  | textPlain (payload : List Char)
  | textHtml (payload : List Char)
  | otherPart

/-- A message: multipart with its walked parts, or a single-part body
(lines 285-299). -/
inductive Msg where
  | multi (parts : List MPart)
  | singlePlain (content : List Char)
  | singleHtml (content : List Char)

/-- The four accumulators of the walk (lines 247-250). -/
structure WalkAcc where
  bodyText : List Char
  bodyHtml : List Char
  attachments : List (List Char × Option (List Char))
  attachmentTexts : List (List Char)

/-- The walk over the parts (lines 252-284): attachments are saved and,
when extraction is on, contribute their block to attachment_texts; text
parts concatenate into the bodies in order. -/
def walkParts (extract : Bool) : List MPart → WalkAcc
  | [] => ⟨[], [], [], []⟩
  | p :: rest =>
    let r := walkParts extract rest
    match p with
    | .attach f t =>
      { r with
        attachments := (f, if extract then some t else none) :: r.attachments,
        attachmentTexts :=
          if extract then attBlock f t :: r.attachmentTexts
          else r.attachmentTexts }
    | .textPlain s => { r with bodyText := s ++ r.bodyText }
    | .textHtml s => { r with bodyHtml := s ++ r.bodyHtml }
    | .otherPart => r

/-- The record parse_email_body_and_attachments returns (lines 311-316):
note the `body_text` key holds the COMBINED text. -/
structure ParsedEmail where
  bodyText : List Char
  bodyHtml : List Char
  attachments : List (List Char × Option (List Char))
  hasExtractedAttachments : Bool
  deriving DecidableEq

/-- parse_email_body_and_attachments (lines 245-316): walk the parts,
derive a plain body from HTML when only HTML exists (line 302), then
append the attachment blocks to the stripped body (lines 305-309). -/
def parseEmailBodyAndAttachments (htmlToText : List Char → List Char)
    (extract : Bool) (m : Msg) : ParsedEmail :=
  let acc :=
    match m with
    | .multi parts => walkParts extract parts
    | .singlePlain c => ⟨c, [], [], []⟩
    | .singleHtml c => ⟨[], c, [], []⟩
  let bodyText :=
    if acc.bodyHtml ≠ [] ∧ acc.bodyText = [] then htmlToText acc.bodyHtml
    else acc.bodyText
  let combined :=
    if acc.attachmentTexts ≠ [] then
      pyStrip bodyText ++ joinL ['\n'] acc.attachmentTexts
    else pyStrip bodyText
  ⟨combined, pyStrip acc.bodyHtml, acc.attachments, !acc.attachmentTexts.isEmpty⟩

/-- The record download_email_full returns together with its body.txt
artifact (lines 357-361 and 375-385): the `body` key and the persisted
file both carry the parsed `body_text`, written only when non-empty. -/
structure DownloadedEmail where
  body : List Char
  bodyTxtFile : Option (List Char)
  deriving DecidableEq

/-- download_email_full (lines 318-385), restricted to the body artifact. -/
def downloadEmailFull (htmlToText : List Char → List Char) (extract : Bool)
    (m : Msg) : DownloadedEmail :=
  let parsed := parseEmailBodyAndAttachments htmlToText extract m
  ⟨parsed.bodyText,
    if parsed.bodyText ≠ [] then some parsed.bodyText else none⟩

/-- The plain body of a message before any attachment text is appended:
what the walk accumulates, with the HTML fallback applied. -/
def msgBody (htmlToText : List Char → List Char) (m : Msg) : List Char :=
  let acc :=
    match m with
    | .multi parts => walkParts true parts
    | .singlePlain c => ⟨c, [], [], []⟩
    | .singleHtml c => ⟨[], c, [], []⟩
  if acc.bodyHtml ≠ [] ∧ acc.bodyText = [] then htmlToText acc.bodyHtml
  else acc.bodyText

/-- The attachments of a message with their extracted texts, in part
order. -/
def msgAtts : Msg → List (List Char × List Char)
  | .multi parts =>
    parts.filterMap fun p =>
      match p with
      | .attach f t => some (f, t)
      | _ => none
  | _ => []

/-! ## Part 2: theorems -/

example : pyStrip "  Hello \n".toList = "Hello".toList := by decide
example : pySplit "b".toList "abc".toList = ["a".toList, "c".toList] := by decide
example : pySplit ". ".toList "x. y. ".toList =
    ["x".toList, "y".toList, []] := by decide
example : pySplit "==".toList "a===b".toList = ["a".toList, "=b".toList] := by decide
example : pyReplace "===".toList [] "a= === b".toList = "a=  b".toList := by decide
example : splitFirst1 '\n' "ab\ncd\nef".toList =
    ("ab".toList, some "cd\nef".toList) := by decide

/-! ### Lemmas about the string primitives -/

theorem isPref_append (p t : List Char) : isPref p (p ++ t) = true := by
  induction p with
  | nil => rfl
  | cons a as ih => simp [isPref, ih]

theorem isPref_iff {p s : List Char} : isPref p s = true ↔ ∃ t, s = p ++ t := by
  induction p generalizing s with
  | nil => simp [isPref]
  | cons a as ih =>
    cases s with
    | nil => simp [isPref]
    | cons b bs =>
      simp only [isPref, Bool.and_eq_true, decide_eq_true_eq, ih, List.cons_append]
      constructor
      · rintro ⟨rfl, t, rfl⟩
        exact ⟨t, rfl⟩
      · rintro ⟨t, h⟩
        cases h
        exact ⟨rfl, t, rfl⟩

theorem containsSub_iff {sep s : List Char} :
    containsSub sep s = true ↔ ∃ a b, s = a ++ sep ++ b := by
  induction s with
  | nil =>
    simp only [containsSub, List.isEmpty_iff]
    constructor
    · rintro rfl
      exact ⟨[], [], rfl⟩
    · rintro ⟨a, b, h⟩
      rcases List.append_eq_nil.mp h.symm with ⟨h1, rfl⟩
      exact (List.append_eq_nil.mp h1).2
  | cons c rest ih =>
    simp only [containsSub, Bool.or_eq_true, isPref_iff, ih]
    constructor
    · rintro (⟨t, h⟩ | ⟨a, b, h⟩)
      · exact ⟨[], t, by simp [h]⟩
      · exact ⟨c :: a, b, by simp [h]⟩
    · rintro ⟨a, b, h⟩
      cases a with
      | nil => exact Or.inl ⟨b, by simpa using h⟩
      | cons a0 as =>
        rcases List.cons_eq_cons.mp h with ⟨rfl, h2⟩
        exact Or.inr ⟨as, b, by simpa using h2⟩

theorem containsSub_of_middle {sep a b : List Char} :
    containsSub sep (a ++ sep ++ b) = true :=
  containsSub_iff.mpr ⟨a, b, rfl⟩

theorem splitCh_skip (sep : List Char) :
    ∀ (x y acc : List Char), splitCh sep (x ++ y) x.length acc = splitCh sep y 0 acc := by
  intro x
  induction x with
  | nil => intro y acc; rfl
  | cons c x' ih => intro y acc; simpa [splitCh] using ih y acc

theorem splitCh_noOcc {sep : List Char} :
    ∀ (s acc : List Char), containsSub sep s = false →
      splitCh sep s 0 acc = [acc.reverse ++ s] := by
  intro s
  induction s with
  | nil => intro acc _; simp [splitCh]
  | cons c rest ih =>
    intro acc h
    simp only [containsSub, Bool.or_eq_false_iff] at h
    simp [splitCh, h.1, ih (c :: acc) h.2]

theorem not_isPref_extend {sep a b : List Char} (hnb : noBorder sep)
    (h : containsSub sep a = false) (ha : a ≠ []) :
    isPref sep (a ++ sep ++ b) = false := by
  by_contra hcon
  rw [Bool.not_eq_false, isPref_iff] at hcon
  obtain ⟨t, ht⟩ := hcon
  rw [List.append_assoc] at ht
  rcases List.append_eq_append_iff.mp ht with ⟨w, hw1, _⟩ | ⟨w, hw1, _⟩
  · -- sep = a ++ w : the separator begins with all of a
    cases w with
    | nil =>
      rw [List.append_nil] at hw1
      rw [containsSub_iff.mpr ⟨[], [], by simp [hw1]⟩] at h
      exact Bool.true_eq_false.mp h
    | cons w0 ws =>
      -- a non-empty border w of sep: contradiction with noBorder
      have hcancel : sep ++ b = (w0 :: ws) ++ t := by
        have h2 : a ++ (sep ++ b) = a ++ ((w0 :: ws) ++ t) := by
          rw [ht, hw1]
          simp [List.append_assoc]
        exact List.append_cancel_left h2
      have hwpref : isPref (w0 :: ws) sep = true := by
        rcases List.append_eq_append_iff.mp hcancel with ⟨u, hu1, _⟩ | ⟨u, hu1, _⟩
        · -- w = sep ++ u : impossible by lengths
          exfalso
          have hlen1 : sep.length = a.length + (w0 :: ws).length := by
            rw [hw1]; simp
          have hlen2 : (w0 :: ws).length = sep.length + u.length := by
            rw [hu1]; simp
          have hapos : 0 < a.length := List.length_pos.mpr ha
          omega
        · exact isPref_iff.mpr ⟨u, hu1⟩
      have hdrop : sep.drop a.length = w0 :: ws := by
        rw [hw1, List.drop_left]
      have hklt : a.length < sep.length := by
        have : sep.length = a.length + (w0 :: ws).length := by rw [hw1]; simp
        simp at this
        omega
      have := hnb a.length hklt (List.length_pos.mpr ha)
      rw [hdrop, hwpref] at this
      exact Bool.true_eq_false.mp this
  · -- a = sep ++ w : sep occurs inside a
    rw [containsSub_iff.mpr ⟨[], w, by simp [hw1]⟩] at h
    exact Bool.true_eq_false.mp h

theorem splitCh_pos {sep : List Char} {c : Char} {rest acc : List Char}
    (h : isPref sep (c :: rest) = true) :
    splitCh sep (c :: rest) 0 acc =
      acc.reverse :: splitCh sep rest (sep.length - 1) [] := by
  simp [splitCh, h]

theorem splitCh_neg {sep : List Char} {c : Char} {rest acc : List Char}
    (h : isPref sep (c :: rest) = false) :
    splitCh sep (c :: rest) 0 acc = splitCh sep rest 0 (c :: acc) := by
  simp [splitCh, h]

/-- Consuming a separator sitting at the front of the text. -/
theorem splitCh_sepFront {sep : List Char} (hsep : sep ≠ []) (b acc : List Char) :
    splitCh sep (sep ++ b) 0 acc = acc.reverse :: splitCh sep b 0 [] := by
  cases sep with
  | nil => exact absurd rfl hsep
  | cons d sep' =>
    have hpref : isPref (d :: sep') (d :: (sep' ++ b)) = true := by
      simpa using isPref_append (d :: sep') b
    rw [List.cons_append, splitCh_pos hpref,
      show (d :: sep').length - 1 = sep'.length from by simp,
      splitCh_skip (d :: sep') sep' b []]

theorem splitCh_step {sep : List Char} (hsep : sep ≠ []) (hnb : noBorder sep) :
    ∀ (a b acc : List Char), containsSub sep a = false →
      splitCh sep (a ++ sep ++ b) 0 acc =
        (acc.reverse ++ a) :: splitCh sep b 0 [] := by
  intro a
  induction a with
  | nil =>
    intro b acc _
    rw [List.nil_append, splitCh_sepFront hsep]
    simp
  | cons c a' ih =>
    intro b acc h
    simp only [containsSub, Bool.or_eq_false_iff] at h
    have hca : containsSub sep (c :: a') = false := by
      simp [containsSub, h.1, h.2]
    have hnp : isPref sep ((c :: a') ++ sep ++ b) = false :=
      not_isPref_extend hnb hca (by simp)
    rw [List.cons_append, List.cons_append] at hnp
    rw [List.cons_append, List.cons_append, splitCh_neg hnp,
      ih b (c :: acc) h.2]
    simp

/-- Variant of `not_isPref_extend` needing no border condition: it is
enough that the last character of `a` does not occur in the separator. -/
theorem not_isPref_extend2 {sep y b : List Char} {c0 : Char}
    (h : containsSub sep (y ++ [c0]) = false) (hc : c0 ∉ sep) :
    isPref sep ((y ++ [c0]) ++ sep ++ b) = false := by
  by_contra hcon
  rw [Bool.not_eq_false, isPref_iff] at hcon
  obtain ⟨t, ht⟩ := hcon
  rw [List.append_assoc] at ht
  rcases List.append_eq_append_iff.mp ht with ⟨w, hw1, _⟩ | ⟨w, hw1, _⟩
  · -- sep = (y ++ [c0]) ++ w : then c0 occurs in sep
    exact hc (by rw [hw1]; simp)
  · -- y ++ [c0] = sep ++ w : sep occurs inside y ++ [c0]
    rw [containsSub_iff.mpr ⟨[], w, by simp [hw1]⟩] at h
    exact Bool.true_eq_false.mp h

/-- Variant of `splitCh_step` for a separator with borders: usable when the
piece before the separator ends in a character that the separator does not
contain. -/
theorem splitCh_step2 {sep : List Char} (hsep : sep ≠ []) {c0 : Char}
    (hc : c0 ∉ sep) :
    ∀ (y b acc : List Char), containsSub sep (y ++ [c0]) = false →
      splitCh sep ((y ++ [c0]) ++ sep ++ b) 0 acc =
        (acc.reverse ++ (y ++ [c0])) :: splitCh sep b 0 [] := by
  intro y
  induction y with
  | nil =>
    intro b acc h
    have hnp : isPref sep (([] ++ [c0]) ++ sep ++ b) = false :=
      not_isPref_extend2 h hc
    rw [List.nil_append] at hnp ⊢
    have hnp' : isPref sep (c0 :: (sep ++ b)) = false := by
      simpa [List.append_assoc] using hnp
    rw [show [c0] ++ sep ++ b = c0 :: (sep ++ b) from by simp,
      splitCh_neg hnp', splitCh_sepFront hsep]
    simp
  | cons c y' ih =>
    intro b acc h
    have hnp : isPref sep (((c :: y') ++ [c0]) ++ sep ++ b) = false :=
      not_isPref_extend2 h hc
    have h' : containsSub sep (y' ++ [c0]) = false := by
      have := h
      rw [List.cons_append, containsSub] at this
      exact (Bool.or_eq_false_iff.mp this).2
    rw [List.cons_append, List.cons_append, List.cons_append] at hnp
    rw [List.cons_append, List.cons_append, List.cons_append,
      splitCh_neg hnp, ih b (c :: acc) h']
    simp

/-- Dropping a piece in front whose characters all differ from the head of
the separator does not change substring containment. -/
theorem containsSub_headNe {h0 : Char} {sepT : List Char} :
    ∀ {x : List Char} (y : List Char), (∀ c ∈ x, c ≠ h0) →
      containsSub (h0 :: sepT) (x ++ y) = containsSub (h0 :: sepT) y := by
  intro x
  induction x with
  | nil => intro y _; rfl
  | cons c x' ih =>
    intro y hx
    have hc : c ≠ h0 := hx c (by simp)
    have hp : isPref (h0 :: sepT) (c :: (x' ++ y)) = false := by
      simp only [isPref, Bool.and_eq_false_iff, decide_eq_false_iff_not]
      exact Or.inl fun h => hc h.symm
    rw [List.cons_append, containsSub, hp, Bool.false_or]
    exact ih y fun c hc' => hx c (by simp [hc'])

/-- Appending one character that differs from the last character of the
separator does not create a new occurrence. -/
theorem containsSub_concat_false {sep t : List Char} {c : Char}
    (ht : containsSub sep t = false) (hsep : sep ≠ [])
    (hlast : sep.getLast? ≠ some c) :
    containsSub sep (t ++ [c]) = false := by
  by_contra h
  rw [Bool.not_eq_false, containsSub_iff] at h
  obtain ⟨a, b, hab⟩ := h
  rcases List.eq_nil_or_concat b with rfl | ⟨b', c', rfl⟩
  · -- t ++ [c] = a ++ sep : sep would end in c
    rw [List.append_nil] at hab
    have h1 : (t ++ [c]).getLast? = some c := List.getLast?_concat t
    rw [hab, List.getLast?_append] at h1
    obtain ⟨x, hx⟩ := List.getLast?_isSome.mpr hsep |> Option.isSome_iff_exists.mp
    rw [hx] at h1
    simp only [Option.or_some] at h1
    rw [hx, h1] at hlast
    exact hlast rfl
  · -- t ++ [c] = (a ++ sep ++ b') ++ [c'] : an occurrence already inside t
    have hsh : t ++ [c] = (a ++ sep ++ b') ++ [c'] := by
      rw [hab]; simp [List.append_assoc]
    have ht' : t = a ++ sep ++ b' := by
      have := congrArg List.dropLast hsh
      simpa [List.dropLast_concat] using this
    rw [containsSub_iff.mpr ⟨a, b', ht'⟩] at ht
    exact Bool.true_eq_false.mp ht

/-- Containment of a longer separator implies containment of its tail part:
contrapositive form. -/
theorem containsSub_mono {u v s : List Char} (h : containsSub v s = false) :
    containsSub (u ++ v) s = false := by
  by_contra hc
  rw [Bool.not_eq_false, containsSub_iff] at hc
  obtain ⟨a, b, rfl⟩ := hc
  rw [containsSub_iff.mpr ⟨a ++ u, b, by simp [List.append_assoc]⟩] at h
  exact Bool.true_eq_false.mp h

/-- Splitting once at a designated character not occurring earlier. -/
theorem splitFirst1_append {c0 : Char} :
    ∀ {x : List Char} (y : List Char), (∀ c ∈ x, c ≠ c0) →
      splitFirst1 c0 (x ++ c0 :: y) = (x, some y) := by
  intro x
  induction x with
  | nil => intro y _; simp [splitFirst1]
  | cons c x' ih =>
    intro y hx
    have hc : c ≠ c0 := hx c (by simp)
    rw [List.cons_append, splitFirst1, if_neg hc, ih y fun c hc' => hx c (by simp [hc'])]

/-! ### Lemmas about stripping -/

theorem lstrip_cons_ws {c : Char} (h : isPySpace c = true) (t : List Char) :
    lstrip (c :: t) = lstrip t := by
  simp [lstrip, List.dropWhile_cons, h]

theorem rstrip_concat_ws {c : Char} (h : isPySpace c = true) (t : List Char) :
    rstrip (t ++ [c]) = rstrip t := by
  simp [rstrip, List.dropWhile_cons, h]

theorem rstrip_concat_nonws {c : Char} (h : isPySpace c = false) (t : List Char) :
    rstrip (t ++ [c]) = t ++ [c] := by
  simp [rstrip, List.dropWhile_cons, h]

theorem length_lstrip_le (x : List Char) : (lstrip x).length ≤ x.length :=
  (List.dropWhile_sublist _).length_le

theorem length_rstrip_le (x : List Char) : (rstrip x).length ≤ x.length := by
  simpa [rstrip] using (List.dropWhile_sublist (l := x.reverse) isPySpace).length_le

theorem stripped_lstrip {s : List Char} (h : pyStrip s = s) : lstrip s = s := by
  have h1 := length_lstrip_le s
  have h2 := length_rstrip_le (lstrip s)
  have h3 : (pyStrip s).length = s.length := by rw [h]
  rw [pyStrip] at h3
  have h4 : (lstrip s).length = s.length := by omega
  have h5 := (List.dropWhile_suffix (l := s) isPySpace).eq_of_length
    (by simpa [lstrip] using h4)
  simpa [lstrip] using h5

theorem stripped_rstrip {s : List Char} (h : pyStrip s = s) : rstrip s = s := by
  have hl := stripped_lstrip h
  rw [pyStrip, hl] at h
  exact h

theorem stripped_head {c : Char} {s' : List Char} (h : pyStrip (c :: s') = c :: s') :
    isPySpace c = false := by
  have hl := stripped_lstrip h
  by_contra hc
  rw [Bool.not_eq_false] at hc
  rw [lstrip, List.dropWhile_cons, if_pos hc] at hl
  have := (List.dropWhile_sublist (l := s') isPySpace).length_le
  rw [hl] at this
  simp at this

theorem pyStrip_cons_ws {c : Char} (hc : isPySpace c = true) (t : List Char) :
    pyStrip (c :: t) = pyStrip t := by
  simp only [pyStrip]
  rw [lstrip_cons_ws hc]

theorem lstrip_append_of_ne {f : List Char} (hf : lstrip f = f) (hfne : f ≠ [])
    (x : List Char) : lstrip (f ++ x) = f ++ x := by
  rw [lstrip] at hf ⊢
  rw [List.dropWhile_append, hf]
  simp [List.isEmpty_iff, hfne]

theorem pyStrip_concat_ws {t : List Char} {c : Char} (hc : isPySpace c = true)
    (h : pyStrip t = t) : pyStrip (t ++ [c]) = t := by
  cases t with
  | nil => simp [pyStrip, lstrip, rstrip, List.dropWhile_cons, hc]
  | cons d t' =>
    have hl := stripped_lstrip h
    have hlapp : lstrip ((d :: t') ++ [c]) = (d :: t') ++ [c] :=
      lstrip_append_of_ne hl (by simp) [c]
    rw [pyStrip, hlapp, rstrip_concat_ws hc, stripped_rstrip h]

/-! ### The segmenter round trip -/

theorem markerFull_ne : markerFull ≠ [] := by decide

theorem markerFull_noBorder : noBorder markerFull := by decide

theorem markerFull_eq2 : markerFull = ['\n', '\n'] ++ markerM := by decide

theorem attHeader_no_nl {f : List Char} (hf2 : ∀ c ∈ f, c ≠ '\n') :
    ∀ c ∈ (' ' :: (f ++ [' ', '=', '=', '='])), c ≠ '\n' := by
  intro c hc
  simp only [List.mem_cons, List.mem_append, List.not_mem_nil, or_false] at hc
  rcases hc with rfl | hc | rfl | rfl | rfl | rfl
  · decide
  · exact hf2 c hc
  all_goals decide

theorem noMarker_tail {t e : List Char} (ht1 : pyStrip t = t)
    (ht2 : containsSub markerM t = false) (he : e = [] ∨ e = ['\n']) :
    containsSub markerFull ('\n' :: (t ++ e)) = false := by
  have hrest : containsSub markerFull (t ++ e) = false := by
    rcases he with rfl | rfl
    · rw [List.append_nil, markerFull_eq2]
      exact containsSub_mono ht2
    · rw [markerFull_eq2]
      exact containsSub_mono
        (containsSub_concat_false ht2 (by decide) (by decide))
  have hpref : isPref markerFull ('\n' :: (t ++ e)) = false := by
    cases t with
    | nil =>
      rcases he with rfl | rfl <;> decide
    | cons c t' =>
      have hcn : isPySpace c = false := stripped_head ht1
      have hcne : ('\n' : Char) ≠ c := by
        intro h
        rw [← h] at hcn
        exact absurd hcn (by decide)
      rw [markerFull_eq2]
      simp [isPref, hcne]
  rw [containsSub, hpref, hrest]
  rfl

theorem noMarker_seg {f t : List Char} (hok : attOk (f, t)) {e : List Char}
    (he : e = [] ∨ e = ['\n']) :
    containsSub markerFull (attSeg f t ++ e) = false := by
  obtain ⟨hf1, hf2, hf3, ht1, ht2⟩ := hok
  have hsh : attSeg f t ++ e =
      (' ' :: (f ++ [' ', '=', '=', '='])) ++ ('\n' :: (t ++ e)) := by
    simp [attSeg, List.append_assoc]
  rw [hsh, markerFull_eq2]
  rw [show (['\n', '\n'] ++ markerM : List Char) = '\n' :: ('\n' :: markerM) from rfl]
  rw [containsSub_headNe _ (attHeader_no_nl hf2)]
  rw [show ('\n' :: ('\n' :: markerM) : List Char) = ['\n', '\n'] ++ markerM from rfl,
    ← markerFull_eq2]
  exact noMarker_tail ht1 ht2 he

theorem joinL_blocks :
    ∀ (atts : List (List Char × List Char)), atts ≠ [] →
      joinL ['\n'] (atts.map fun a => attBlock a.1 a.2) = markerFull ++ segTail atts := by
  intro atts
  induction atts with
  | nil => intro h; exact absurd rfl h
  | cons hd tl ih =>
    obtain ⟨f, t⟩ := hd
    intro _
    cases tl with
    | nil => simp [joinL, attBlock, segTail, attSeg, List.append_assoc]
    | cons r rest' =>
      simp only [List.map_cons, joinL]
      rw [show attBlock r.1 r.2 :: List.map (fun a => attBlock a.1 a.2) rest' =
        List.map (fun a => attBlock a.1 a.2) (r :: rest') from rfl, ih (by simp)]
      simp [attBlock, segTail, attSeg, List.append_assoc]

theorem splitCh_segTail :
    ∀ (atts : List (List Char × List Char)), atts ≠ [] →
      (∀ a ∈ atts, attOk a) →
      splitCh markerFull (segTail atts) 0 [] = segList atts := by
  intro atts
  induction atts with
  | nil => intro h _; exact absurd rfl h
  | cons hd tl ih =>
    obtain ⟨f, t⟩ := hd
    intro _ hok
    cases tl with
    | nil =>
      have hno : containsSub markerFull (attSeg f t) = false := by
        have := noMarker_seg (hok (f, t) (by simp)) (Or.inl rfl)
        simpa using this
      rw [show segTail [(f, t)] = attSeg f t from rfl, splitCh_noOcc _ [] hno]
      simp [segList]
    | cons r rest' =>
      have hno : containsSub markerFull (attSeg f t ++ ['\n']) = false :=
        noMarker_seg (hok (f, t) (by simp)) (Or.inr rfl)
      have hsh : segTail ((f, t) :: r :: rest') =
          (attSeg f t ++ ['\n']) ++ markerFull ++ segTail (r :: rest') := by
        simp [segTail, List.append_assoc]
      rw [hsh,
        splitCh_step markerFull_ne markerFull_noBorder _ _ [] hno,
        ih (by simp) fun a ha => hok a (by simp [ha])]
      simp [segList]

theorem parseSeg_eq {f t : List Char} (hok : attOk (f, t)) {e : List Char}
    (he : e = [] ∨ e = ['\n']) :
    parseSeg (attSeg f t ++ e) = (f, t) := by
  obtain ⟨hf1, hf2, hf3, ht1, ht2⟩ := hok
  have hsh : attSeg f t ++ e =
      (' ' :: (f ++ [' ', '=', '=', '='])) ++ '\n' :: (t ++ e) := by
    simp [attSeg, List.append_assoc]
  have hcontent : pyStrip (t ++ e) = t := by
    rcases he with rfl | rfl
    · rw [List.append_nil]; exact ht1
    · exact pyStrip_concat_ws (by decide) ht1
  have hfname :
      pyStrip (pyReplace ['=', '=', '=' ] []
        (pyStrip (' ' :: (f ++ [' ', '=', '=', '='])))) = f := by
    rw [pyStrip_cons_ws (by decide)]
    cases f with
    | nil => decide
    | cons c f' =>
      have hfl := stripped_lstrip hf1
      have hstr : pyStrip ((c :: f') ++ [' ', '=', '=', '=']) =
          (c :: f') ++ [' ', '=', '=', '='] := by
        rw [pyStrip, lstrip_append_of_ne hfl (by simp)]
        rw [show (c :: f') ++ [' ', '=', '=', '='] =
          ((c :: f') ++ [' ', '=', '=']) ++ ['='] from by simp]
        rw [rstrip_concat_nonws (by decide)]
      rw [hstr]
      have hcont : containsSub ['=', '=', '='] ((c :: f') ++ [' ']) = false :=
        containsSub_concat_false hf3 (by decide) (by decide)
      have hrep : pyReplace ['=', '=', '='] [] ((c :: f') ++ [' ', '=', '=', '=']) =
          (c :: f') ++ [' '] := by
        rw [pyReplace, pySplit, if_neg (by decide)]
        rw [show (c :: f') ++ [' ', '=', '=', '='] =
          ((c :: f') ++ [' ']) ++ ['=', '=', '='] ++ [] from by simp]
        rw [splitCh_step2 (by decide) (by decide) (c :: f') [] [] hcont]
        simp [joinL, splitCh]
      rw [hrep]
      exact pyStrip_concat_ws (by decide) hf1
  rw [hsh, parseSeg,
    splitFirst1_append (t ++ e) (attHeader_no_nl hf2)]
  simpa [hfname] using hcontent

theorem segList_map_parseSeg :
    ∀ (atts : List (List Char × List Char)), (∀ a ∈ atts, attOk a) →
      (segList atts).map parseSeg = atts := by
  intro atts
  induction atts with
  | nil => intro _; rfl
  | cons hd tl ih =>
    obtain ⟨f, t⟩ := hd
    intro hok
    cases tl with
    | nil =>
      have := parseSeg_eq (hok (f, t) (by simp)) (Or.inl rfl)
      simp only [segList, List.map_cons, List.map_nil]
      rw [show attSeg f t = attSeg f t ++ [] from by simp, this]
    | cons r rest' =>
      simp only [segList, List.map_cons]
      rw [parseSeg_eq (hok (f, t) (by simp)) (Or.inr rfl),
        show (segList (r :: rest')).map parseSeg = r :: rest' from
          ih fun a ha => hok a (by simp [ha])]

theorem encodeCombined_ne {B : List Char} {atts : List (List Char × List Char)}
    (h : atts ≠ []) :
    encodeCombined B atts = pyStrip B ++ (markerFull ++ segTail atts) := by
  have hmap : (atts.map fun a => attBlock a.1 a.2) ≠ [] := by
    simpa using h
  simp only [encodeCombined]
  rw [if_neg (by simpa [List.isEmpty_iff] using hmap), joinL_blocks atts h]

/-- Claim C1, amended (corrected): decoding recovers the encoded parts
exactly when the inputs are strip-stable and marker-free: the body equals
its own strip and does not contain the marker token, each filename is
strip-stable, newline-free and contains no `===`, and each extracted text
equals its own strip and does not contain the marker token.  As literally
stated — for arbitrary attachment texts — the claim fails, because both
the encoder and the decoder strip surrounding whitespace
(see `C1_roundtrip_counterexample`). -/
theorem C1_decode_encode_roundtrip (B : List Char)
    (atts : List (List Char × List Char)) (hB1 : pyStrip B = B)
    (hB2 : containsSub markerM B = false) (hatts : ∀ a ∈ atts, attOk a) :
    decodeCombined (encodeCombined B atts) = (B, atts) := by
  cases atts with
  | nil =>
    have henc : encodeCombined B [] = B := by
      simp [encodeCombined, hB1]
    rw [henc, decodeCombined, if_neg (by simp [hB2])]
  | cons a0 atl =>
    rw [encodeCombined_ne (by simp), hB1]
    have hcm : containsSub markerM (B ++ (markerFull ++ segTail (a0 :: atl))) = true := by
      rw [show B ++ (markerFull ++ segTail (a0 :: atl)) =
        (B ++ ['\n', '\n']) ++ markerM ++ segTail (a0 :: atl) from by
          rw [markerFull_eq2]; simp [List.append_assoc]]
      exact containsSub_of_middle
    have hcB : containsSub markerFull B = false := by
      rw [markerFull_eq2]; exact containsSub_mono hB2
    have hsplit : pySplit markerFull (B ++ (markerFull ++ segTail (a0 :: atl))) =
        B :: segList (a0 :: atl) := by
      rw [pySplit, if_neg (by decide)]
      rw [show B ++ (markerFull ++ segTail (a0 :: atl)) =
        B ++ markerFull ++ segTail (a0 :: atl) from by simp [List.append_assoc]]
      rw [splitCh_step markerFull_ne markerFull_noBorder _ _ [] hcB,
        splitCh_segTail (a0 :: atl) (by simp) hatts]
      simp
    rw [decodeCombined, if_pos hcm, hsplit]
    show (pyStrip B, (segList (a0 :: atl)).map parseSeg) = (B, a0 :: atl)
    rw [hB1, segList_map_parseSeg _ hatts]

/-- Claim C1 as stated is false on the code: the body `" Hi"` and the
attachment text `" W "` contain no marker token, yet the decoder returns
their stripped forms, not the originals. -/
theorem C1_roundtrip_counterexample :
    containsSub markerM " Hi".toList = false ∧
      decodeCombined (encodeCombined " Hi".toList
        [("a.txt".toList, " W ".toList)]) =
        ("Hi".toList, [("a.txt".toList, "W".toList)]) ∧
      decodeCombined (encodeCombined " Hi".toList
        [("a.txt".toList, " W ".toList)]) ≠
        (" Hi".toList, [("a.txt".toList, " W ".toList)]) := by
  refine ⟨by decide, by decide, by decide⟩

/-- Witness for `C1_decode_encode_roundtrip` at a concrete input. -/
theorem C1_decode_encode_roundtrip_witness :
    (pyStrip "Hello".toList = "Hello".toList ∧
      containsSub markerM "Hello".toList = false ∧
      attOk ("a.txt".toList, "World".toList)) ∧
    decodeCombined (encodeCombined "Hello".toList
      [("a.txt".toList, "World".toList)]) =
      ("Hello".toList, [("a.txt".toList, "World".toList)]) :=
  ⟨⟨by decide, by decide, by decide⟩,
    C1_decode_encode_roundtrip _ _ (by decide) (by decide) (by
      intro a ha
      rw [List.mem_singleton] at ha
      subst ha
      decide)⟩

/-- Claim C2 (confirmed): encoding body `Hello` with the single attachment
`a.txt` / `World` yields exactly the literal combined text, and decoding
that combined text returns the body `Hello` and the single attachment
record `a.txt` / `World`. -/
theorem C2_segmentation_scenario :
    encodeCombined "Hello".toList [("a.txt".toList, "World".toList)] =
        "Hello\n\n=== 첨부파일: a.txt ===\nWorld".toList ∧
      decodeCombined "Hello\n\n=== 첨부파일: a.txt ===\nWorld".toList =
        ("Hello".toList, [("a.txt".toList, "World".toList)]) := by
  refine ⟨by decide, by decide⟩

/-! ### The chunker -/

theorem flatDot_append (g : List (List Char)) (s : List Char) :
    flatDot g ++ s ++ ['.', ' '] = flatDot (g ++ [s]) := by
  simp [flatDot, List.append_assoc]

theorem flatDot_ne {g : List (List Char)} (h : g ≠ []) : flatDot g ≠ [] := by
  cases g with
  | nil => exact absurd rfl h
  | cons x gs => simp [flatDot]

theorem sttGo_groups (tok : List Char → Nat) (maxTok : Nat) :
    ∀ (ss g : List (List Char)) (chunks : List (List Char)),
      (g = [] ∨ (g ≠ [] ∧ (tok (flatDot g) ≤ maxTok ∨ g.length = 1))) →
      ∃ gs : List (List (List Char)),
        sttGo tok maxTok ss (flatDot g) chunks =
          chunks ++ gs.map (fun q => pyStrip (flatDot q)) ∧
        gs.flatten = g ++ ss ∧
        ∀ q ∈ gs, q ≠ [] ∧ (tok (flatDot q) ≤ maxTok ∨ q.length = 1) := by
  intro ss
  induction ss with
  | nil =>
    intro g chunks hg
    rcases hg with rfl | hok
    · exact ⟨[], by simp [sttGo, flatDot], by simp, by simp⟩
    · refine ⟨[g], ?_, by simp, by simpa using hok⟩
      simp [sttGo, flatDot_ne hok.1]
  | cons s rest ih =>
    intro g chunks hg
    by_cases hgt : tok (flatDot g ++ s ++ ['.', ' ']) > maxTok
    · by_cases hge : g = []
      · subst hge
        obtain ⟨gs, h1, h2, h3⟩ :=
          ih [s] chunks (Or.inr ⟨by simp, Or.inr rfl⟩)
        refine ⟨gs, ?_, by simpa using h2, h3⟩
        have hfd : flatDot [s] = s ++ ['.', ' '] := by simp [flatDot]
        rw [hfd] at h1
        simpa [sttGo, flatDot, hgt] using h1
      · obtain ⟨gs, h1, h2, h3⟩ :=
          ih [s] (chunks ++ [pyStrip (flatDot g)]) (Or.inr ⟨by simp, Or.inr rfl⟩)
        refine ⟨g :: gs, ?_, ?_, ?_⟩
        · have hfd : flatDot [s] = s ++ ['.', ' '] := by simp [flatDot]
          rw [hfd] at h1
          simp only [sttGo, if_pos hgt, if_neg (flatDot_ne hge)]
          rw [h1]
          simp [List.append_assoc]
        · simpa using h2
        · intro q hq
          rcases List.mem_cons.mp hq with rfl | hq'
          · exact (hg.resolve_left hge)
          · exact h3 q hq'
    · obtain ⟨gs, h1, h2, h3⟩ :=
        ih (g ++ [s]) chunks (Or.inr ⟨by simp, Or.inl (by
          rw [← flatDot_append]; omega)⟩)
      refine ⟨gs, ?_, ?_, h3⟩
      · rw [flatDot_append] at hgt
        simp only [sttGo, flatDot_append, if_neg hgt]
        exact h1
      · rw [h2]
        simp

/-- Claim C3, amended (corrected): for text over the token budget,
split_text_by_tokens returns the strip of the `. `-joined text of the
groups of a consecutive partition of the sentence list (nothing is lost
or reordered), and every chunk is within the budget or consists of a
single sentence.  As literally stated the claim fails: a single sentence
longer than the budget yields an over-budget chunk, and the added
terminator `. ` plus the stripping make the concatenation of the chunks
differ from the original sentence sequence
(see `C3_chunking_counterexample`). -/
theorem C3_splitTextByTokens_groups (tok : List Char → Nat) (maxTok : Nat)
    (text : List Char) (_hbig : tok text > maxTok) :
    ∃ gs : List (List (List Char)),
      splitTextByTokens tok maxTok text =
        gs.map (fun q => pyStrip (flatDot q)) ∧
      gs.flatten = pySplit ['.', ' '] text ∧
      ∀ q ∈ gs, q ≠ [] ∧ (tok (flatDot q) ≤ maxTok ∨ q.length = 1) := by
  obtain ⟨gs, h1, h2, h3⟩ :=
    sttGo_groups tok maxTok (pySplit ['.', ' '] text) [] [] (Or.inl rfl)
  refine ⟨gs, ?_, by simpa using h2, h3⟩
  simpa [splitTextByTokens, flatDot] using h1

/-- Claim C3 as stated is false on the code: for the five-character text
`aaaaa` (a single sentence) with budget 3 and the character-count token
function, the one produced chunk `aaaaa.` exceeds the budget, and the
concatenation of the trimmed chunks does not reproduce the sentence
sequence of the original text. -/
theorem C3_chunking_counterexample :
    List.length "aaaaa".toList > 3 ∧
    ¬ ((∀ c ∈ splitTextByTokens List.length 3 "aaaaa".toList, c.length ≤ 3) ∧
        pySplit ['.', ' ']
            ((splitTextByTokens List.length 3 "aaaaa".toList).map pyStrip).flatten =
          pySplit ['.', ' '] "aaaaa".toList) := by
  refine ⟨by decide, by decide⟩

/-- Witness for `C3_splitTextByTokens_groups` at a concrete input. -/
theorem C3_splitTextByTokens_groups_witness :
    List.length "a. b".toList > 3 ∧
    (∃ gs : List (List (List Char)),
      splitTextByTokens List.length 3 "a. b".toList =
        gs.map (fun q => pyStrip (flatDot q)) ∧
      gs.flatten = pySplit ['.', ' '] "a. b".toList ∧
      ∀ q ∈ gs, q ≠ [] ∧ (List.length (flatDot q) ≤ 3 ∨ q.length = 1)) :=
  ⟨by decide,
    C3_splitTextByTokens_groups List.length 3 "a. b".toList (by decide)⟩

/-! ### File names -/

theorem cleanChar_idem (c : Char) : cleanChar (cleanChar c) = cleanChar c := by
  by_cases h1 : illegalChar c = true
  · simp only [show cleanChar c = '_' from by simp [cleanChar, h1]]
    decide
  · by_cases h2 : c = ' '
    · subst h2; decide
    · simp only [show cleanChar c = c from by simp [cleanChar, h1, h2]]

theorem cleanName_of_stable {r : List Char} (h : ∀ c ∈ r, cleanChar c = c) :
    cleanName r = r := by
  induction r with
  | nil => rfl
  | cons c rest ih =>
    simp only [cleanName, List.map_cons] at ih ⊢
    rw [h c (by simp), ih fun c hc => h c (by simp [hc])]

theorem mem_cleanName_stable {x : List Char} {c : Char} (h : c ∈ cleanName x) :
    cleanChar c = c := by
  simp only [cleanName, List.mem_map] at h
  obtain ⟨d, _, rfl⟩ := h
  exact cleanChar_idem d

theorem splitExt_append (p : List Char) :
    (splitExt p).1 ++ (splitExt p).2 = p := by
  rw [splitExt]
  by_cases h1 : lastIdx '/' p < lastIdx '.' p
  · rw [if_pos h1]
    by_cases h2 : ((p.drop (lastIdx '/' p + 1).toNat).take
        (lastIdx '.' p - lastIdx '/' p - 1).toNat).any (fun x => x ≠ '.') = true
    · rw [if_pos h2]
      exact List.take_append_drop _ p
    · rw [if_neg h2]
      simp
  · rw [if_neg h1]
    simp

theorem splitExt_subsets (p : List Char) :
    (∀ c ∈ (splitExt p).1, c ∈ p) ∧ ∀ c ∈ (splitExt p).2, c ∈ p := by
  constructor <;> intro c hc <;>
    · rw [← splitExt_append p]
      simp [hc]

/-- Claim C6, amended (corrected): sanitize_filename is idempotent for
every filename whose extension, after character replacement, is at most
200 characters long.  As literally stated the claim fails: when the
extension alone exceeds 200 characters the stem cut `200 - len(ext)` is
negative, Python slicing then cuts from the end, the first result stays
longer than 200 characters, and the second application truncates it again
(see `C6_sanitize_counterexample`). -/
theorem C6_sanitize_idem (x : List Char)
    (hext : (splitExt (cleanName x)).2.length ≤ 200) :
    sanitizeFilename (sanitizeFilename x) = sanitizeFilename x := by
  by_cases hlen : 200 < (cleanName x).length
  · have hres : sanitizeFilename x =
        pySliceTo (200 - ((splitExt (cleanName x)).2.length : Int))
          (splitExt (cleanName x)).1 ++ (splitExt (cleanName x)).2 := by
      rw [sanitizeFilename]
      simp only [if_pos hlen]
    set n := (splitExt (cleanName x)).1 with hn
    set e := (splitExt (cleanName x)).2 with he
    have hnonneg : ¬ ((200 : Int) - (e.length : Int) < 0) := by
      push_neg
      omega
    have hslice : pySliceTo (200 - (e.length : Int)) n =
        n.take ((200 : Int) - (e.length : Int)).toNat := by
      rw [pySliceTo, if_neg hnonneg]
    have hlenr : (pySliceTo (200 - (e.length : Int)) n ++ e).length ≤ 200 := by
      rw [hslice]
      have h1 : (n.take ((200 : Int) - (e.length : Int)).toNat).length ≤
          200 - e.length := by
        rw [List.length_take]
        omega
      rw [List.length_append]
      omega
    have hstable : ∀ c ∈ pySliceTo (200 - (e.length : Int)) n ++ e,
        cleanChar c = c := by
      intro c hc
      rw [List.mem_append] at hc
      apply mem_cleanName_stable (x := x)
      rcases hc with hc | hc
      · rw [hslice] at hc
        exact (splitExt_subsets (cleanName x)).1 c (List.take_subset _ _ hc)
      · exact (splitExt_subsets (cleanName x)).2 c hc
    rw [hres, sanitizeFilename, cleanName_of_stable hstable]
    simp only [if_neg (by omega : ¬ 200 < (pySliceTo (200 - (e.length : Int)) n ++ e).length)]
  · have hres : sanitizeFilename x = cleanName x := by
      rw [sanitizeFilename]
      simp only [if_neg hlen]
    rw [hres, sanitizeFilename,
      cleanName_of_stable fun c hc => mem_cleanName_stable hc]
    simp only [if_neg hlen]

set_option maxRecDepth 20000 in
/-- Claim C6 as stated is false on the code: for the 252-character name
`x.` followed by 250 `b` characters, the extension found by splitext is
251 characters long, the negative stem cut empties the stem, the first
sanitize returns the 251-character extension unchanged in length, and the
second application cuts it to 200 characters. -/
theorem C6_sanitize_counterexample :
    (sanitizeFilename ('x' :: '.' :: List.replicate 250 'b')).length = 251 ∧
    (sanitizeFilename (sanitizeFilename
      ('x' :: '.' :: List.replicate 250 'b'))).length = 200 ∧
    sanitizeFilename (sanitizeFilename ('x' :: '.' :: List.replicate 250 'b')) ≠
      sanitizeFilename ('x' :: '.' :: List.replicate 250 'b') := by
  refine ⟨by decide, by decide, by decide⟩

/-- Witness for `C6_sanitize_idem` at a concrete input. -/
theorem C6_sanitize_idem_witness :
    (splitExt (cleanName "my report?.txt".toList)).2.length ≤ 200 ∧
    sanitizeFilename (sanitizeFilename "my report?.txt".toList) =
      sanitizeFilename "my report?.txt".toList :=
  ⟨by decide, C6_sanitize_idem "my report?.txt".toList (by decide)⟩

/-- Claim C7 (confirmed): saving an attachment into an empty folder keeps
its sanitized name; saving a second attachment with the same name yields
the name suffixed `_1` before the extension, which is distinct from the
first file, so two distinct files result. -/
theorem C7_collision_suffix (s : List Char) :
    resolvePath [] s = s ∧
    resolvePath [s] s =
      (splitExt s).1 ++ '_' :: (natDigits 1 ++ (splitExt s).2) ∧
    resolvePath [s] s ≠ s := by
  have hd1 : natDigits 1 = ['1'] := rfl
  have hlen : ((splitExt s).1 ++ '_' :: (natDigits 1 ++ (splitExt s).2)).length =
      s.length + 2 := by
    have h := congrArg List.length (splitExt_append s)
    rw [List.length_append] at h
    rw [hd1]
    simp only [List.length_append, List.length_cons, List.length_nil]
    omega
  have hcand : (splitExt s).1 ++ '_' :: (natDigits 1 ++ (splitExt s).2) ≠ s := by
    intro h
    have := congrArg List.length h
    omega
  refine ⟨by simp [resolvePath], ?_, ?_⟩
  · rw [resolvePath, if_pos (by simp)]
    show findFree [s] _ _ 2 1 = _
    rw [findFree, if_neg (by simpa using hcand)]
  · rw [resolvePath, if_pos (by simp)]
    show findFree [s] _ _ 2 1 ≠ s
    rw [findFree, if_neg (by simpa using hcand)]
    exact hcand

/-! ### The format extractor -/

theorem bracketed_append (pre e : List Char) (hp : pre.head? = some '[') :
    bracketed (pre ++ e ++ [']']) := by
  constructor
  · rw [List.append_assoc, List.head?_append, hp]
    rfl
  · exact List.getLast?_concat _

/-- Claim C5 (confirmed): extract_text_from_file is total — its result is
either the text a library call produced or a bracketed failure marker —
and every extension outside the supported set falls through to the
not-supported marker, whose text contains the chosen not-supported
wording (`지원하지 않습니다`). -/
theorem C5_extract_never_raises (caps : ExtractCaps)
    (pdfRead docRead xlsRead pptRead : List Char → Except (List Char) (List Char))
    (txtRead : List Char → TxtRead) (filepath : List Char) :
    (∃ r, extractTextFromFile caps pdfRead docRead xlsRead pptRead txtRead
        filepath = r ∧
      (pdfRead filepath = .ok r ∨ docRead filepath = .ok r ∨
        xlsRead filepath = .ok r ∨ pptRead filepath = .ok r ∨
        txtRead filepath = .ok r ∨ bracketed r)) ∧
    (lowerExt filepath ∉ supportedExts →
      extractTextFromFile caps pdfRead docRead xlsRead pptRead txtRead
          filepath =
        "[".toList ++ lowerExt filepath ++
          " 형식은 텍스트 추출을 지원하지 않습니다]".toList ∧
      containsSub "지원하지 않습니다".toList
        (extractTextFromFile caps pdfRead docRead xlsRead pptRead txtRead
          filepath) = true) := by
  simp only [extractTextFromFile]
  by_cases h1 : lowerExt filepath = ".pdf".toList ∧ caps.pdf = true
  · rw [if_pos h1]
    refine ⟨?_, fun hn => absurd (h1.1 ▸ (by decide)) hn⟩
    rcases hr : pdfRead filepath with e | t
    · exact ⟨"[PDF 텍스트 추출 실패: ".toList ++ e ++ [']'], rfl,
        Or.inr <| Or.inr <| Or.inr <| Or.inr <| Or.inr <|
          bracketed_append _ _ (by decide)⟩
    · exact ⟨t, rfl, Or.inl rfl⟩
  · rw [if_neg h1]
    by_cases h2 : (lowerExt filepath = ".docx".toList ∨
        lowerExt filepath = ".doc".toList) ∧ caps.docx = true
    · rw [if_pos h2]
      refine ⟨?_, fun hn => absurd
        (by rcases h2.1 with h | h <;> exact h ▸ (by decide)) hn⟩
      rcases hr : docRead filepath with e | t
      · exact ⟨"[Word 텍스트 추출 실패: ".toList ++ e ++ [']'], rfl,
          Or.inr <| Or.inr <| Or.inr <| Or.inr <| Or.inr <|
            bracketed_append _ _ (by decide)⟩
      · exact ⟨t, rfl, Or.inr <| Or.inl rfl⟩
    · rw [if_neg h2]
      by_cases h3 : (lowerExt filepath = ".xlsx".toList ∨
          lowerExt filepath = ".xls".toList) ∧ caps.xlsx = true
      · rw [if_pos h3]
        refine ⟨?_, fun hn => absurd
          (by rcases h3.1 with h | h <;> exact h ▸ (by decide)) hn⟩
        rcases hr : xlsRead filepath with e | t
        · exact ⟨"[Excel 텍스트 추출 실패: ".toList ++ e ++ [']'], rfl,
            Or.inr <| Or.inr <| Or.inr <| Or.inr <| Or.inr <|
              bracketed_append _ _ (by decide)⟩
        · exact ⟨t, rfl, Or.inr <| Or.inr <| Or.inl rfl⟩
      · rw [if_neg h3]
        by_cases h4 : (lowerExt filepath = ".pptx".toList ∨
            lowerExt filepath = ".ppt".toList) ∧ caps.pptx = true
        · rw [if_pos h4]
          refine ⟨?_, fun hn => absurd
            (by rcases h4.1 with h | h <;> exact h ▸ (by decide)) hn⟩
          rcases hr : pptRead filepath with e | t
          · exact ⟨"[PowerPoint 텍스트 추출 실패: ".toList ++ e ++ [']'], rfl,
              Or.inr <| Or.inr <| Or.inr <| Or.inr <| Or.inr <|
                bracketed_append _ _ (by decide)⟩
          · exact ⟨t, rfl, Or.inr <| Or.inr <| Or.inr <| Or.inl rfl⟩
        · rw [if_neg h4]
          by_cases h5 : lowerExt filepath ∈ textExts
          · rw [if_pos h5]
            refine ⟨?_, fun hn => absurd (by
              have : lowerExt filepath ∈ supportedExts := by
                rw [supportedExts, List.mem_append]
                exact Or.inr h5
              exact this) hn⟩
            rcases hr : txtRead filepath with t | _ | e
            · exact ⟨t, rfl,
                Or.inr <| Or.inr <| Or.inr <| Or.inr <| Or.inl rfl⟩
            · exact ⟨"[텍스트 파일 인코딩 실패]".toList, rfl,
                Or.inr <| Or.inr <| Or.inr <| Or.inr <| Or.inr <|
                  ⟨rfl, rfl⟩⟩
            · exact ⟨"[텍스트 파일 읽기 실패: ".toList ++ e ++ [']'], rfl,
                Or.inr <| Or.inr <| Or.inr <| Or.inr <| Or.inr <|
                  bracketed_append _ _ (by decide)⟩
          · rw [if_neg h5]
            constructor
            · refine ⟨_, rfl,
                Or.inr <| Or.inr <| Or.inr <| Or.inr <| Or.inr <| ?_⟩
              have hd : (" 형식은 텍스트 추출을 지원하지 않습니다]".toList :
                  List Char) =
                  " 형식은 텍스트 추출을 지원하지 않습니다".toList ++ [']'] := by
                decide
              rw [hd, show ("[".toList : List Char) ++ lowerExt filepath ++
                (" 형식은 텍스트 추출을 지원하지 않습니다".toList ++ [']']) =
                "[".toList ++ (lowerExt filepath ++
                  " 형식은 텍스트 추출을 지원하지 않습니다".toList) ++ [']']
                from by simp [List.append_assoc]]
              exact bracketed_append _ _ (by decide)
            · intro _
              refine ⟨rfl, ?_⟩
              have hd : (" 형식은 텍스트 추출을 지원하지 않습니다]".toList :
                  List Char) =
                  " 형식은 텍스트 추출을 ".toList ++
                    "지원하지 않습니다".toList ++ "]".toList := by decide
              rw [hd, show ("[".toList : List Char) ++ lowerExt filepath ++
                (" 형식은 텍스트 추출을 ".toList ++
                  "지원하지 않습니다".toList ++ "]".toList) =
                ("[".toList ++ lowerExt filepath ++
                  " 형식은 텍스트 추출을 ".toList) ++
                  "지원하지 않습니다".toList ++ "]".toList
                from by simp [List.append_assoc]]
              exact containsSub_of_middle

/-- Witness for `C5_extract_never_raises` at the `.bin` scenario. -/
theorem C5_extract_never_raises_witness :
    lowerExt "file.bin".toList ∉ supportedExts ∧
    (extractTextFromFile ⟨true, true, true, true⟩ (fun _ => .ok [])
        (fun _ => .ok []) (fun _ => .ok []) (fun _ => .ok [])
        (fun _ => .ok []) "file.bin".toList =
      "[".toList ++ lowerExt "file.bin".toList ++
        " 형식은 텍스트 추출을 지원하지 않습니다]".toList ∧
    containsSub "지원하지 않습니다".toList
      (extractTextFromFile ⟨true, true, true, true⟩ (fun _ => .ok [])
        (fun _ => .ok []) (fun _ => .ok []) (fun _ => .ok [])
        (fun _ => .ok []) "file.bin".toList) = true) :=
  ⟨by decide,
    (C5_extract_never_raises ⟨true, true, true, true⟩ (fun _ => .ok [])
      (fun _ => .ok []) (fun _ => .ok []) (fun _ => .ok [])
      (fun _ => .ok []) "file.bin".toList).2 (by decide)⟩

/-! ### The workflow and the sender -/

/-- Claim C8 (confirmed): the fetch-summarize-send workflow returns an
explicit failure and never reaches the send call when the fetch yields no
messages or when no message was successfully summarized. -/
theorem C8_workflow_short_circuit {α β σ : Type} (emails : List α)
    (summarize : List α → List β) (hasSummary : β → Bool)
    (send : List β → σ) :
    (emails = [] →
      fetchSummarizeSend emails summarize hasSummary send =
        (⟨false, some errNoFetch, none, none⟩, none)) ∧
    ((summarize emails).filter hasSummary = [] →
      (fetchSummarizeSend emails summarize hasSummary send).2 = none ∧
      (fetchSummarizeSend emails summarize hasSummary send).1.success = false ∧
      ((fetchSummarizeSend emails summarize hasSummary send).1.error =
          some errNoFetch ∨
        (fetchSummarizeSend emails summarize hasSummary send).1.error =
          some errNoSumm)) := by
  constructor
  · intro h
    subst h
    rfl
  · intro h
    by_cases he : emails.isEmpty
    · rw [fetchSummarizeSend, if_pos he]
      exact ⟨rfl, rfl, Or.inl rfl⟩
    · rw [fetchSummarizeSend, if_neg he]
      simp [h]

/-- Witness for `C8_workflow_short_circuit` at a concrete input. -/
theorem C8_workflow_short_circuit_witness :
    ([] : List Nat) = [] ∧
    fetchSummarizeSend ([] : List Nat) (fun _ => ([] : List Nat))
        (fun _ => true) (fun _ => (0 : Nat)) =
      (⟨false, some errNoFetch, none, none⟩, none) :=
  ⟨rfl, (C8_workflow_short_circuit [] (fun _ => []) (fun _ => true)
    (fun _ => 0)).1 rfl⟩

/-- Claim C9 (confirmed): sending with one existing, readable attachment
and one nonexistent attachment path succeeds with attachment count 1 (only
the existing file attached, under its base name), records exactly the
missing-file warning, and raises no exception (the embedding is total). -/
theorem C9_missing_attachment (fileOk readOk : List Char → Bool)
    (p1 p2 : List Char) (toEmails ccEmails bccEmails : List (List Char))
    (h1 : fileOk p1 = true) (h2 : readOk p1 = true) (h3 : fileOk p2 = false) :
    (sendEmail fileOk readOk .ok toEmails ccEmails bccEmails [p1, p2]).success
        = true ∧
    (sendEmail fileOk readOk .ok toEmails ccEmails bccEmails
        [p1, p2]).attachmentCount = 1 ∧
    (sendEmail fileOk readOk .ok toEmails ccEmails bccEmails
        [p1, p2]).attachments = [pathName p1] ∧
    (sendEmail fileOk readOk .ok toEmails ccEmails bccEmails
        [p1, p2]).warnings = [warnMissing p2] := by
  have ha1 : addAttachmentOutcome fileOk readOk p1 = (true, none) := by
    rw [addAttachmentOutcome, if_neg (by rw [h1]; simp), if_pos h2]
  have ha2 : addAttachmentOutcome fileOk readOk p2 =
      (false, some (warnMissing p2)) := by
    rw [addAttachmentOutcome, if_pos h3]
  refine ⟨rfl, ?_, ?_, ?_⟩ <;>
    simp [sendEmail, ha1, ha2]

/-- Witness for `C9_missing_attachment` at a concrete input. -/
theorem C9_missing_attachment_witness :
    ((fun p => decide (p = "a.txt".toList)) "a.txt".toList = true ∧
      (fun _ : List Char => true) "a.txt".toList = true ∧
      (fun p => decide (p = "a.txt".toList)) "missing.pdf".toList = false) ∧
    ((sendEmail (fun p => decide (p = "a.txt".toList)) (fun _ => true) .ok
        ["to@x.com".toList] [] [] ["a.txt".toList, "missing.pdf".toList]).success
          = true ∧
      (sendEmail (fun p => decide (p = "a.txt".toList)) (fun _ => true) .ok
        ["to@x.com".toList] [] []
        ["a.txt".toList, "missing.pdf".toList]).attachmentCount = 1 ∧
      (sendEmail (fun p => decide (p = "a.txt".toList)) (fun _ => true) .ok
        ["to@x.com".toList] [] []
        ["a.txt".toList, "missing.pdf".toList]).attachments =
          [pathName "a.txt".toList] ∧
      (sendEmail (fun p => decide (p = "a.txt".toList)) (fun _ => true) .ok
        ["to@x.com".toList] [] []
        ["a.txt".toList, "missing.pdf".toList]).warnings =
          [warnMissing "missing.pdf".toList]) :=
  ⟨⟨by decide, rfl, by decide⟩,
    C9_missing_attachment (fun p => decide (p = "a.txt".toList)) (fun _ => true)
      "a.txt".toList "missing.pdf".toList ["to@x.com".toList] [] []
      (by decide) rfl (by decide)⟩

/-! ### The summarizer ratio guard and the parser body invariant -/

/-- Claim C4 (code_bug): the division-by-zero guard the spec requires is
present in summarize_downloaded_attachment (line 692), whose result
reports compression ratio 0 for zero original tokens, but absent in
summarize_email (line 275): there a zero token count raises
ZeroDivisionError, the handler at line 284 swallows it, and an error
record without any compression_ratio is returned instead of the required
ratio 0.  Both facts evaluated with the token counter constantly zero. -/
theorem C4_ratio_guard_divergence :
    summarizeEmailModel (fun _ => 0) (fun s => s) 4096
        ⟨none, none, none, some "x".toList⟩ true false =
      .error "메일 요약 실패: division by zero".toList ∧
    summarizeDownloadedAttachment (fun _ => 0) (fun s => s) 4096 [] =
      .ok ⟨0, [], 0, 0⟩ := by
  refine ⟨rfl, rfl⟩

theorem walkParts_attTexts (parts : List MPart) :
    (walkParts true parts).attachmentTexts =
      (msgAtts (.multi parts)).map fun a => attBlock a.1 a.2 := by
  induction parts with
  | nil => rfl
  | cons p rest ih =>
    have ih' : (walkParts true rest).attachmentTexts =
        (rest.filterMap fun p => match p with
          | .attach f t => some (f, t)
          | _ => none).map fun a => attBlock a.1 a.2 := ih
    cases p <;>
      simp [walkParts, msgAtts, List.filterMap_cons, ih']

theorem joinL_ne_nil {sep b : List Char} {bs : List (List Char)}
    (hb : b ≠ []) : joinL sep (b :: bs) ≠ [] := by
  cases bs with
  | nil => simpa [joinL] using hb
  | cons c cs =>
    intro h
    simp only [joinL] at h
    exact hb (List.append_eq_nil.mp (List.append_eq_nil.mp h).1).1

theorem attBlock_ne (f t : List Char) : attBlock f t ≠ [] := by
  intro h
  have hlen := congrArg List.length h
  simp only [attBlock, List.length_append, List.length_nil] at hlen
  have : markerFull.length = 11 := rfl
  omega

/-- Claim C10 (confirmed): for a multipart message with at least one
attachment, parsed with extraction on, the `body_text` field of the
parse result is exactly the encoder's combined text — the stripped plain
body followed by the attachment marker blocks — and so differs from the
stripped plain body; download_email_full returns that same combined value
in its `body` field and persists it as the body.txt artifact. -/
theorem C10_body_is_combined (htmlToText : List Char → List Char)
    (parts : List MPart) (hatt : msgAtts (.multi parts) ≠ []) :
    (parseEmailBodyAndAttachments htmlToText true (.multi parts)).bodyText =
      encodeCombined (msgBody htmlToText (.multi parts))
        (msgAtts (.multi parts)) ∧
    (parseEmailBodyAndAttachments htmlToText true (.multi parts)).bodyText ≠
      pyStrip (msgBody htmlToText (.multi parts)) ∧
    (downloadEmailFull htmlToText true (.multi parts)).body =
      (parseEmailBodyAndAttachments htmlToText true (.multi parts)).bodyText ∧
    (downloadEmailFull htmlToText true (.multi parts)).bodyTxtFile =
      some (parseEmailBodyAndAttachments htmlToText true
        (.multi parts)).bodyText := by
  obtain ⟨a0, arest, hae⟩ :
      ∃ a0 arest, msgAtts (.multi parts) = a0 :: arest := by
    cases h : msgAtts (.multi parts) with
    | nil => exact absurd h hatt
    | cons a0 arest => exact ⟨a0, arest, rfl⟩
  have hTexts := walkParts_attTexts parts
  have hblocks : (walkParts true parts).attachmentTexts =
      attBlock a0.1 a0.2 :: arest.map fun a => attBlock a.1 a.2 := by
    rw [hTexts, hae, List.map_cons]
  have hTne : (walkParts true parts).attachmentTexts ≠ [] := by
    rw [hblocks]
    simp
  have hjoinne : joinL ['\n'] (walkParts true parts).attachmentTexts ≠ [] := by
    rw [hblocks]
    exact joinL_ne_nil (attBlock_ne a0.1 a0.2)
  have hparse :
      (parseEmailBodyAndAttachments htmlToText true (.multi parts)).bodyText =
        pyStrip (msgBody htmlToText (.multi parts)) ++
          joinL ['\n'] (walkParts true parts).attachmentTexts := by
    simp only [parseEmailBodyAndAttachments, msgBody]
    rw [if_pos hTne]
  have hne :
      (parseEmailBodyAndAttachments htmlToText true (.multi parts)).bodyText ≠
        pyStrip (msgBody htmlToText (.multi parts)) := by
    rw [hparse]
    intro h
    have hlen := congrArg List.length h
    rw [List.length_append] at hlen
    have : (joinL ['\n'] (walkParts true parts).attachmentTexts).length = 0 := by
      omega
    exact hjoinne (List.length_eq_zero.mp this)
  refine ⟨?_, hne, rfl, ?_⟩
  · rw [hparse, hTexts]
    simp only [encodeCombined]
    rw [if_neg (by rw [hae]; simp [List.isEmpty_iff])]
  · have hbne :
        (parseEmailBodyAndAttachments htmlToText true (.multi parts)).bodyText ≠
          [] := by
      rw [hparse]
      intro h
      exact hjoinne (List.append_eq_nil.mp h).2
    simp only [downloadEmailFull]
    rw [if_pos hbne]

/-- Witness for `C10_body_is_combined` at a concrete message. -/
theorem C10_body_is_combined_witness :
    msgAtts (.multi [MPart.textPlain "Hi".toList,
        MPart.attach "a.txt".toList "World".toList]) ≠ [] ∧
    ((parseEmailBodyAndAttachments (fun _ => []) true
        (.multi [MPart.textPlain "Hi".toList,
          MPart.attach "a.txt".toList "World".toList])).bodyText =
      encodeCombined (msgBody (fun _ => [])
          (.multi [MPart.textPlain "Hi".toList,
            MPart.attach "a.txt".toList "World".toList]))
        (msgAtts (.multi [MPart.textPlain "Hi".toList,
          MPart.attach "a.txt".toList "World".toList])) ∧
    (parseEmailBodyAndAttachments (fun _ => []) true
        (.multi [MPart.textPlain "Hi".toList,
          MPart.attach "a.txt".toList "World".toList])).bodyText ≠
      pyStrip (msgBody (fun _ => [])
        (.multi [MPart.textPlain "Hi".toList,
          MPart.attach "a.txt".toList "World".toList])) ∧
    (downloadEmailFull (fun _ => []) true
        (.multi [MPart.textPlain "Hi".toList,
          MPart.attach "a.txt".toList "World".toList])).body =
      (parseEmailBodyAndAttachments (fun _ => []) true
        (.multi [MPart.textPlain "Hi".toList,
          MPart.attach "a.txt".toList "World".toList])).bodyText ∧
    (downloadEmailFull (fun _ => []) true
        (.multi [MPart.textPlain "Hi".toList,
          MPart.attach "a.txt".toList "World".toList])).bodyTxtFile =
      some (parseEmailBodyAndAttachments (fun _ => []) true
        (.multi [MPart.textPlain "Hi".toList,
          MPart.attach "a.txt".toList "World".toList])).bodyText) :=
  ⟨by decide,
    C10_body_is_combined (fun _ => [])
      [MPart.textPlain "Hi".toList, MPart.attach "a.txt".toList "World".toList]
      (by decide)⟩

end MailService
